import Mathlib

/-!
# Verification of `onmt/io/HierarchicalTextDataset.py`

Shallow embedding of the hierarchical text dataset module of this
OpenNMT-py fork, together with theorems settling the specification
claims about it.

Conventions of the embedding:
* A file on disk is modelled by its whitespace-tokenized lines: a value
  of type `List (List Tok)`, where a `Tok` is the base word together
  with its delimited feature fields.
* For the sharding logic a file is identified with its byte size
  (`os.path.getsize`), so a directory is a `List Nat` of sizes.
* Python `int` state variables are `Int`; byte sizes are `Nat`.
* Runtime exceptions of the Python code (`NameError` for a variable
  referenced before assignment, `AttributeError` for a missing
  attribute, `AssertionError`) are explicit error values.
* Scores are exact rationals (`ℚ`); the epsilon `1e-10` is `1/10^10`.
-/

/-- Runtime errors raised by the Python code. -/
inductive IterErr where
  /-- a local variable referenced before assignment -/
  | nameError : IterErr
  /-- an attribute that the object does not have (`self.corpus`) -/
  | attributeError : IterErr
  /-- `raise AssertionError("Two corpuses must have same number of lines!")` -/
  | assertionError : IterErr
deriving DecidableEq, Repr

/-- Mutable state of a `ShardedHierarchicalTextCorpusIterator`:
the remaining file list (files identified by their byte sizes), the
accumulated byte size `cur_pos` of the current shard, the index of the
last consumed file `file_index` (initialised to `-1`), and the
end-of-stream flag `eof`. -/
structure ShardState where
  filelist : List Nat
  cur_pos : Int
  file_index : Int
  eof : Bool
deriving DecidableEq, Repr

/-- The state of the iterator right after `__init__`. -/
def ShardState.init (files : List Nat) : ShardState :=
  { filelist := files, cur_pos := 0, file_index := -1, eof := false }

/-- Outcome of running one `__iter__` generator to its end: the files
yielded during this shard, the iterator state afterwards, and the
uncaught exception if the generator died on one. -/
structure ShardRun where
  yielded : List Nat
  state : ShardState
  err : Option IterErr
deriving DecidableEq, Repr

/-- `ShardedHierarchicalTextCorpusIterator.__iter__`, independent mode
(`assoc_iter is None`).  Faithful transcription of the loop

```
while True:
    try:
        path = self.filelist.next()
    except:
        self.eof = True
        raise StopIteration
    if self.shard_size != 0 and self.cur_pos>=0:
        next_size = os.path.getsize(path)
        if next_size+self.cur_pos>=self.shard_size:
            self.cur_pos = 0
            self.filelist = chain([path], self.filelist)
            raise StopIteration
    self.cur_pos+=next_size
    self.file_index += 1
    iteration_index += 1
    yield self._example_dict_iter(path, iteration_index)
```

Note that `next_size` is assigned only inside the
`shard_size != 0` guard, so when `shard_size == 0` the statement
`self.cur_pos += next_size` raises `NameError` on the first file
(`path` has already been popped from `self.filelist` at that point). -/
def shard_iter_indep_aux (shard_size : Nat) :
    List Nat → Int → Int → Bool → ShardRun
  | [], cur_pos, file_index, _eof =>
    ⟨[], ⟨[], cur_pos, file_index, true⟩, none⟩
  | path :: rest, cur_pos, file_index, eof =>
    if shard_size ≠ 0 ∧ 0 ≤ cur_pos then
      if (path : Int) + cur_pos ≥ (shard_size : Int) then
        -- shard boundary: reset cur_pos, push the file back, StopIteration
        ⟨[], ⟨path :: rest, 0, file_index, eof⟩, none⟩
      else
        let r := shard_iter_indep_aux shard_size rest (cur_pos + (path : Int))
          (file_index + 1) eof
        ⟨path :: r.yielded, r.state, r.err⟩
    else
      -- `self.cur_pos += next_size` with `next_size` unbound: NameError
      ⟨[], ⟨rest, cur_pos, file_index, eof⟩, some IterErr.nameError⟩

/-- One `__iter__` run in independent mode, acting on the iterator state. -/
def shard_iter_indep (shard_size : Nat) (st : ShardState) : ShardRun :=
  shard_iter_indep_aux shard_size st.filelist st.cur_pos st.file_index st.eof

/-- Helper for the associate-locked mode: runs the catch-up loop on the
remaining file list and the current `file_index`, given the associate
iterator's `file_index` and `eof` flag.  Returns the yielded files, the
remaining file list, the final `file_index`, the final `eof` flag and
the uncaught exception, if any. -/
def shard_iter_assoc_aux (assoc_file_index : Int) (assoc_eof : Bool) :
    List Nat → Int → List Nat × List Nat × Int × Bool × Option IterErr
  | [], fi =>
    if fi < assoc_file_index then
      -- self.filelist.next() raised; re-raised as the count-mismatch error
      ([], [], fi, false, some IterErr.assertionError)
    else if assoc_eof then
      -- `self.eof = True` happens, then `self.corpus.close()` raises:
      -- `self.corpus` is never assigned anywhere in the class
      ([], [], fi, true, some IterErr.attributeError)
    else
      ([], [], fi, false, none)
  | path :: rest, fi =>
    if fi < assoc_file_index then
      let r := shard_iter_assoc_aux assoc_file_index assoc_eof rest (fi + 1)
      (path :: r.1, r.2)
    else if assoc_eof then
      (([] : List Nat), path :: rest, fi, true, some IterErr.attributeError)
    else
      (([] : List Nat), path :: rest, fi, false, none)

/-- `ShardedHierarchicalTextCorpusIterator.__iter__`, associate-locked
mode (`assoc_iter is not None`): yield one example per file until
`self.file_index` has caught up with `assoc_iter.file_index`; if the
own file list runs out first, raise the consistency `AssertionError`;
once caught up, if the associate has hit end-of-stream, set `self.eof`
and then crash on `self.corpus.close()` (`AttributeError`, since
`self.corpus` does not exist). -/
def shard_iter_assoc (assoc_file_index : Int) (assoc_eof : Bool)
    (st : ShardState) : ShardRun :=
  let r := shard_iter_assoc_aux assoc_file_index assoc_eof st.filelist st.file_index
  ⟨r.1, { st with filelist := r.2.1, file_index := r.2.2.1, eof := r.2.2.2.1 }, r.2.2.2.2⟩

/-- Every file accepted into a shard keeps the accumulated size strictly
below the budget: if the independent-mode iterator starts a shard with
`0 ≤ cur_pos` and a nonzero budget `B`, then either the shard is empty
or `cur_pos` plus the total size of the yielded files is `< B`. -/
theorem shard_iter_indep_sum_lt (B : Nat) (hB : B ≠ 0) (st : ShardState)
    (h0 : 0 ≤ st.cur_pos) :
    (shard_iter_indep B st).yielded = [] ∨
      st.cur_pos + (((shard_iter_indep B st).yielded.sum : Nat) : Int) < (B : Int) := by
  rw [shard_iter_indep]
  obtain ⟨files, cur_pos, file_index, eof⟩ := st
  simp only at h0 ⊢
  induction files generalizing cur_pos file_index with
  | nil => left; rw [shard_iter_indep_aux]
  | cons path rest ih =>
    rw [shard_iter_indep_aux]
    simp only [hB, ne_eq, not_false_eq_true, true_and, h0, if_true]
    by_cases hge : (path : Int) + cur_pos ≥ (B : Int)
    · left; simp [hge]
    · simp only [hge, if_false]
      right
      have h0' : (0 : Int) ≤ cur_pos + (path : Int) := by positivity
      rcases ih (cur_pos + (path : Int)) (file_index + 1) h0' with h | h
      · simp only [h, List.sum_cons, List.sum_nil]
        push_cast
        omega
      · simp only [List.sum_cons]
        push_cast at h ⊢
        omega

/-- A closed witness for `shard_iter_indep_sum_lt`. -/
theorem shard_iter_indep_sum_lt_witness :
    (3 : Nat) ≠ 0 ∧ (0 : Int) ≤ (ShardState.init [1, 1, 5]).cur_pos ∧
      ((shard_iter_indep 3 (ShardState.init [1, 1, 5])).yielded = [] ∨
        (ShardState.init [1, 1, 5]).cur_pos +
          (((shard_iter_indep 3 (ShardState.init [1, 1, 5])).yielded.sum : Nat) : Int) < (3 : Int)) :=
  ⟨by decide, by decide,
    shard_iter_indep_sum_lt 3 (by decide) (ShardState.init [1, 1, 5]) (by decide)⟩

/-- C1: For the independent-mode sharded iterator the triggering file is
pushed back and no shard exceeds the budget, but a single file whose
size alone meets the budget is NOT emitted as a shard by itself:
with budget `B = 2` and one file of size `2`, a full `__iter__` pass
yields nothing and returns the iterator to exactly its initial state,
so every subsequent pass repeats the same empty shard forever and the
file is never emitted (contradicting the claim and the code's own
comment "have to bite the bullet on a big source file at some point"). -/
theorem claim_C1_oversized_file_never_emitted :
    shard_iter_indep 2 (ShardState.init [2]) =
      ⟨[], ShardState.init [2], none⟩ := by
  decide

/-- C2: Two associate-locked iterators over equal file counts `N = 1`:
the associate (independent mode, large budget) ends at `file_index = 0`
with `eof` set; the dependent iterator catches up to `file_index = 0`
and sets its own `eof` flag, but then raises `AttributeError` instead of
terminating cleanly, because it calls `self.corpus.close()` and
`self.corpus` is never assigned anywhere in the class. -/
theorem claim_C2_assoc_completion_raises_attribute_error :
    shard_iter_indep 100 (ShardState.init [5]) =
      ⟨[5], ⟨[], 5, 0, true⟩, none⟩ ∧
    shard_iter_assoc 0 true (ShardState.init [7]) =
      ⟨[7], ⟨[], 0, 0, true⟩, some IterErr.attributeError⟩ := by
  constructor <;> decide

/-- Support: the count-mismatch branch of the associate-locked mode does
raise the consistency `AssertionError` when the dependent iterator's
file list is exhausted while its index is still behind the associate's. -/
theorem shard_iter_assoc_mismatch_assertion :
    shard_iter_assoc 1 true (ShardState.init [9]) =
      ⟨[9], ⟨[], 0, 0, false⟩, some IterErr.assertionError⟩ := by
  decide

/-- C5: With `shard_size = 0` the independent-mode iterator does not
yield every file without error: the guard `shard_size != 0` prevents
`next_size` from ever being assigned, so `self.cur_pos += next_size`
raises `NameError` at the very first file (which has already been
popped from the file list). -/
theorem claim_C5_zero_shard_size_name_error :
    shard_iter_indep 0 (ShardState.init [3, 4]) =
      ⟨[], ⟨[4], 0, -1, false⟩, some IterErr.nameError⟩ := by
  decide

/-! ## Dataset assembly and the length filter (`HierarchicalTextDataset.__init__`) -/

/-- An assembled example, reduced to the two fields the length filter
reads: `src` (a document: sentences of token strings) and `tgt`
(a flat token stream). -/
structure Example where
  src : List (List String)
  tgt : List String
deriving DecidableEq, Repr

/-- The local function `filter_pred` defined in
`HierarchicalTextDataset.__init__`:
`0 < len(example.src) <= src_seq_length and 0 < len(example.tgt) <= tgt_seq_length`. -/
def filter_pred (src_seq_length tgt_seq_length : Nat) (ex : Example) : Bool :=
  decide (0 < ex.src.length ∧ ex.src.length ≤ src_seq_length) &&
    decide (0 < ex.tgt.length ∧ ex.tgt.length ≤ tgt_seq_length)

/-- Modelled from the spec: `ONMTDatasetBase.__init__` (in
`onmt/io/DatasetBase.py`, which is not part of `src/`) keeps exactly
the examples satisfying the filter predicate handed to it. -/
def dataset_base_init (pred : Example → Bool) (examples : List Example) :
    List Example :=
  examples.filter pred

/-- The example-retention behaviour of `HierarchicalTextDataset.__init__`:
the code builds `filter_pred`, replaces it by a constant-true lambda when
`use_filter_pred` is false, and then passes the literal `lambda(x): True`
to the base-class constructor, discarding the predicate it just built
(`lambda(x):True#filter_pred TODO: ...`). -/
def hierarchical_dataset_examples (src_seq_length tgt_seq_length : Nat)
    (use_filter_pred : Bool) (examples : List Example) : List Example :=
  let fp := filter_pred src_seq_length tgt_seq_length
  let fp := if use_filter_pred then fp else fun _ => true
  dataset_base_init (fun _x => true) examples

/-- An example three sentences long on the source side. -/
def exOverlong : Example :=
  ⟨[["a"], ["b"], ["c"]], ["x"]⟩

/-- C3 counterexample: with `use_filter_pred = true` and both bounds
configured to `1`, an example with `len(src) = 3 > 1` fails the filter
predicate yet is still retained by the assembled dataset, because the
constructor passes `lambda(x): True` to the base class instead of the
predicate it built. -/
theorem claim_C3_counterexample :
    hierarchical_dataset_examples 1 1 true [exOverlong] = [exOverlong] ∧
      filter_pred 1 1 exOverlong = false := by
  constructor <;> decide

/-- C3 (amended): the computed filter predicate is never applied — for
every configuration of the bounds and of `use_filter_pred`, the
assembled dataset retains every example. -/
theorem claim_C3_amended_all_examples_retained
    (src_seq_length tgt_seq_length : Nat) (use_filter_pred : Bool)
    (examples : List Example) :
    hierarchical_dataset_examples src_seq_length tgt_seq_length
      use_filter_pred examples = examples := by
  simp [hierarchical_dataset_examples, dataset_base_init]

/-! ## Corpus reading and truncation -/

/-- A raw token of a corpus line: the base word together with the
feature fields separated from it by the in-token feature delimiter.
A file is modelled by its whitespace-tokenized lines,
`List (List Tok)`. -/
structure Tok where
  word : String
  feats : List String
deriving DecidableEq, Repr

/-- Modelled from the spec: `extract_text_features` is defined in
`onmt/io/DatasetBase.py`, which is not under `src/`; only its callers
are.  Per §4.1 it splits a whitespace-tokenized line into the word
sequence and the per-channel feature sequences, requires every token of
the line to carry the same number of delimited feature fields (a
mismatch is a hard error), and returns that per-corpus feature count. -/
def extract_text_features (line : List Tok) :
    Except String (List String × List (List String) × Nat) :=
  match line with
  | [] => .ok ([], [], 0)
  | t :: ts =>
    if ts.all (fun u => u.feats.length == t.feats.length) then
      .ok (line.map Tok.word,
        (List.range t.feats.length).map
          (fun i => line.map (fun u => u.feats.getD i "")),
        t.feats.length)
    else .error "feature count mismatch"

/-- Module-level constant `TRUNC_OUTER_START = -5`. -/
def TRUNC_OUTER_START : Int := -5

/-- Module-level constant `TRUNC_OUTER_END = False`; as a slice bound it
is falsy, so the end-side outer truncation is never applied. -/
def TRUNC_OUTER_END : Bool := false

/-- Python list slicing `l[s:]`: for `s ≥ 0` drop the first `s`
elements; for `s < 0` keep the last `min(len(l), |s|)` elements
(the start index is `max(0, len(l) + s)`). -/
def pySliceFrom (s : Int) (l : List α) : List α :=
  if s < 0 then l.drop (l.length - s.natAbs) else l.drop s.toNat

/-- The outer (document-level) truncation applied to the sentence list
after a src-side file has been read, in both
`HierarchicalTextDataset.read_text_dir` and
`ShardedHierarchicalTextCorpusIterator._example_dict_iter`:
`if TRUNC_OUTER_START: sents = sents[TRUNC_OUTER_START:]` followed by
`if TRUNC_OUTER_END: sents = sents[:TRUNC_OUTER_END]` (skipped, since
`TRUNC_OUTER_END` is `False`). -/
def apply_outer_trunc (sents : List α) : List α :=
  let sents := if TRUNC_OUTER_START ≠ 0 then pySliceFrom TRUNC_OUTER_START sents
               else sents
  sents

/-- `ShardedHierarchicalTextCorpusIterator._example_dict_iter`,
side = "tgt": read the whole file, flatten the line breaks into one
whitespace-separated token stream
(`" ".join(corpus_file.read().split("\n"))` followed by
`text.strip().split()` — which, on whitespace-free tokens, is the
concatenation of the tokenized lines), truncate to `line_truncate`
tokens when that is nonzero, and extract the per-token features. -/
def sharded_example_dict_tgt (line_truncate : Nat) (file : List (List Tok))
    (index : Int) : Except String (List String × Int) :=
  let line := file.flatten
  let line := if line_truncate ≠ 0 then line.take line_truncate else line
  match extract_text_features line with
  | .ok (words, _feats, _nfeats) => .ok (words, index)
  | .error e => .error e

/-- `HierarchicalTextDataset.read_text_dir`, side = "tgt": the branch
computes `text = " ".join(corpus_file.read().split("\n"))` but the next
statement is `line = line.strip().split()`, with `line` never assigned
before — every file raises `NameError`, so the reader produces no
example at all for a nonempty directory. -/
def read_text_dir_tgt (truncate : Nat) (files : List (List (List Tok))) :
    Except IterErr (List (List String × Int)) :=
  match files with
  | [] => .ok []
  | file :: _ =>
    let _text := file.flatten
    .error IterErr.nameError

/-- The concrete two-line file with contents `"a b\nc"`. -/
def fileAB : List (List Tok) :=
  [[⟨"a", []⟩, ⟨"b", []⟩], [⟨"c", []⟩]]

/-- C4: in tgt mode the sharded iterator's reader does emit, per file,
one record holding the file's whole contents flattened into a single
token stream (and truncates it when a nonzero limit is configured), but
`HierarchicalTextDataset.read_text_dir` — the corpus reader the claim
is about — raises `NameError` on every tgt file, because its tgt branch
evaluates `line.strip().split()` before `line` is ever assigned. -/
theorem claim_C4_read_text_dir_tgt_name_error :
    read_text_dir_tgt 0 [fileAB] = Except.error IterErr.nameError ∧
      sharded_example_dict_tgt 0 fileAB 0 = Except.ok (["a", "b", "c"], 0) ∧
      sharded_example_dict_tgt 2 fileAB 0 = Except.ok (["a", "b"], 0) := by
  refine ⟨rfl, rfl, rfl⟩

/-- C8 counterexample: for a src document of `m = 7` sentences the
outer truncation window with start offset `s = TRUNC_OUTER_START = -5`
keeps the last 5 sentences, not `min(m, m - |s|) = min(7, 2) = 2` as the
claim's formula says. -/
theorem claim_C8_counterexample :
    ¬ (((apply_outer_trunc (List.range 7)).length : Int) =
        min (7 : Int) (7 - (TRUNC_OUTER_START.natAbs : Int))) := by
  decide

/-- C8 (amended): a negative outer start offset `s` is a suffix window —
after `sents[s:]` the sentence count equals `min(m, |s|)`
(not `min(m, m - |s|)`). -/
theorem claim_C8_amended_suffix_window_length (s : Int) (l : List α)
    (hs : s < 0) :
    (pySliceFrom s l).length = min l.length s.natAbs := by
  rw [pySliceFrom, if_pos hs, List.length_drop]
  omega

/-- A closed witness for `claim_C8_amended_suffix_window_length`. -/
theorem claim_C8_amended_witness :
    (-5 : Int) < 0 ∧
      (pySliceFrom (-5) (List.range 7)).length =
        min (List.range 7).length (Int.natAbs (-5)) :=
  ⟨by decide, claim_C8_amended_suffix_window_length (-5) (List.range 7) (by decide)⟩

/-! ## Line caps in the sharded src reader -/

/-- `ShardedHierarchicalTextCorpusIterator.__init__`:
`self.post_truncate = line_truncate`. -/
def sharded_post_truncate (line_truncate : Nat) : Nat := line_truncate

/-- The line filter of `_example_dict_iter`, side = "src":
`(e for e in enumerate(corpus_file) if e[0] < self.post_truncate) if
self.post_truncate else enumerate(corpus_file)` — with a nonzero
`post_truncate` only lines whose enumerate index is below it are kept. -/
def kept_lines (post_truncate : Nat) (file : List α) : List α :=
  if post_truncate ≠ 0 then
    (file.enum.filter (fun e => decide (e.1 < post_truncate))).map Prod.snd
  else file

/-- `ShardedHierarchicalTextCorpusIterator._example_dict_iter`,
side = "src": keep the first `post_truncate` lines (all lines when the
cap is zero), truncate each to `line_truncate` tokens when that is
nonzero, extract the word sequence of each line as one sentence, and
finally apply the outer truncation window to the sentence list. -/
def sharded_example_dict_src (line_truncate post_truncate : Nat)
    (file : List (List Tok)) (index : Int) :
    Except String (List (List String) × Int) := do
  let sents ← (kept_lines post_truncate file).mapM (fun line => do
    let line := if line_truncate ≠ 0 then line.take line_truncate else line
    let r ← extract_text_features line
    pure r.1)
  pure (apply_outer_trunc sents, index)

/-- Filtering an enumeration-from-`k` on indices `< n` and dropping the
indices again is exactly `take (n - k)`. -/
theorem enumFrom_filter_lt_map_snd (l : List α) (k n : Nat) :
    ((List.enumFrom k l).filter (fun e => decide (e.1 < n))).map Prod.snd =
      l.take (n - k) := by
  induction l generalizing k with
  | nil => simp
  | cons a l ih =>
    rw [List.enumFrom_cons]
    by_cases hk : k < n
    · have h1 : n - k = (n - (k + 1)) + 1 := by omega
      rw [h1, List.filter_cons, if_pos (by simpa using hk)]
      simp only [List.map_cons, List.take_succ_cons]
      rw [ih (k + 1)]
    · have h1 : n - k = 0 := by omega
      have h2 : n - (k + 1) = 0 := by omega
      rw [List.filter_cons, if_neg (by simpa using hk), ih (k + 1), h1, h2]
      simp

/-- C10: in the sharded iterator's src mode, a nonzero `line_truncate`
also caps the number of lines read per document: `post_truncate` is set
equal to `line_truncate` at construction, and the line filter keeps a
line exactly when its enumerate index is below `post_truncate`, i.e.
the first `line_truncate` lines — before the outer truncation window is
applied; with `line_truncate = 0` every line of the file is kept. -/
theorem claim_C10_line_truncate_caps_lines (line_truncate : Nat)
    (file : List (List Tok)) :
    sharded_post_truncate line_truncate = line_truncate ∧
      kept_lines (sharded_post_truncate line_truncate) file =
        (if line_truncate = 0 then file else file.take line_truncate) ∧
      (kept_lines (sharded_post_truncate line_truncate) file).length =
        (if line_truncate = 0 then file.length
         else min line_truncate file.length) := by
  have hk : kept_lines (sharded_post_truncate line_truncate) file =
      (if line_truncate = 0 then file else file.take line_truncate) := by
    by_cases h : line_truncate = 0
    · simp [kept_lines, sharded_post_truncate, h]
    · simp only [kept_lines, sharded_post_truncate, h, ne_eq,
        not_false_eq_true, if_true, if_false]
      rw [List.enum_eq_enumFrom, enumFrom_filter_lt_map_snd]
      simp
  refine ⟨rfl, hk, ?_⟩
  rw [hk]
  by_cases h : line_truncate = 0
  · simp [h]
  · simp [h, List.length_take]

/-! ## Dynamic dictionary (`HierarchicalTextDataset._dynamic_dict`) -/

/-- The reserved unknown token (from `onmt.io.DatasetBase`). -/
def UNK_WORD : String := "<unk>"

/-- The reserved padding token (from `onmt.io.DatasetBase`). -/
def PAD_WORD : String := "<blank>"

/-- torchtext's `Vocab.stoi`, a defaultdict: the index of `w` in
`itos`, defaulting to `0` (the unknown slot) when `w` is absent. -/
def vocabStoi (itos : List String) (w : String) : Nat :=
  let i := itos.indexOf w
  if i = itos.length then 0 else i

/-- The per-example vocabulary
`torchtext.vocab.Vocab(Counter(flattened src), specials=[UNK_WORD, PAD_WORD])`
(external library, modelled at its interface per §6): `itos` starts
with the two specials, followed by the remaining distinct source tokens
sorted by descending frequency with alphabetical tie-break (the
specials' own counts are removed before the body is built). -/
def localVocabItos (src : List (List String)) : List String :=
  let toks := src.flatten
  let body :=
    (toks.dedup.filter
        (fun w => decide (w ≠ UNK_WORD) && decide (w ≠ PAD_WORD))).mergeSort
      (fun a b =>
        decide (toks.count b < toks.count a ∨
          (toks.count a = toks.count b ∧ a ≤ b)))
  UNK_WORD :: PAD_WORD :: body

/-- `HierarchicalTextDataset._dynamic_dict`: the `src_map` computed for
one example —
`torch.LongTensor([[src_vocab.stoi[w] for w in seq] for seq in src])`.
The `torch.LongTensor` wrapper around the nested comprehension is
modelled as the nested index list itself (the tensor library is an
external collaborator outside this spec's scope). -/
def dynamic_dict_src_map (src : List (List String)) : List (List Nat) :=
  src.map (fun seq => seq.map (fun w => vocabStoi (localVocabItos src) w))

/-- Mapping then indexing with a mapped default commutes. -/
theorem getD_map (f : α → β) (l : List α) (d : α) :
    ∀ i, (l.map f).getD i (f d) = f (l.getD i d) := by
  induction l with
  | nil => intro i; simp
  | cons a l ih =>
    intro i
    cases i with
    | zero => simp
    | succ i => simpa using ih i

/-- The unknown token sits at slot `0` of every local vocabulary. -/
theorem vocabStoi_localVocab_unk (src : List (List String)) :
    vocabStoi (localVocabItos src) UNK_WORD = 0 := by
  rw [vocabStoi, localVocabItos]
  simp [List.indexOf_cons_self]

/-- C9: `src_map` has exactly the nested shape of the example's `src`
(one row per sentence, rows keeping their individual lengths), and
entry `[i][j]` is the local-vocabulary index of token `src[i][j]`. -/
theorem claim_C9_src_map_shape_and_entries (src : List (List String)) :
    (dynamic_dict_src_map src).map List.length = src.map List.length ∧
      ∀ i j, ((dynamic_dict_src_map src).getD i []).getD j 0 =
        vocabStoi (localVocabItos src) ((src.getD i []).getD j UNK_WORD) := by
  constructor
  · simp [dynamic_dict_src_map, List.map_map, Function.comp]
  · intro i j
    have houter :
        (dynamic_dict_src_map src).getD i [] =
          (src.getD i []).map (fun w => vocabStoi (localVocabItos src) w) := by
      simpa [dynamic_dict_src_map] using
        getD_map (fun seq => seq.map (fun w => vocabStoi (localVocabItos src) w))
          src [] i
    rw [houter]
    have hinner :=
      getD_map (fun w => vocabStoi (localVocabItos src) w)
        (src.getD i []) UNK_WORD j
    rw [vocabStoi_localVocab_unk src] at hinner
    exact hinner

/-! ## Copy-score collapsing (`HierarchicalTextDataset.collapse_copy_scores`) -/

/-- The epsilon `1e-10` written into collapsed expanded-region columns
by `index_fill_`. -/
def EPS : ℚ := 1 / 10000000000

/-- The `(blank, fill)` pair list built by the loop of
`collapse_copy_scores`: for every local-vocabulary index `i` in
`range(1, len(src_vocab))` whose token `sw = src_vocab.itos[i]` has a
nonzero shared-vocabulary index `ti = tgt_vocab.stoi[sw]`, the pair
`(offset + i, ti)` with `offset = len(tgt_vocab)`. -/
def copyPairs (tgt_itos src_itos : List String) : List (Nat × Nat) :=
  (List.range' 1 (src_itos.length - 1)).filterMap (fun i =>
    if vocabStoi tgt_itos (src_itos.getD i "") ≠ 0 then
      some (tgt_itos.length + i, vocabStoi tgt_itos (src_itos.getD i ""))
    else none)

/-- `scores.index_add_(1, fill, src)` acting on one row: each pair
`(j, v)` adds `v` onto column `j`, in order, so duplicate target
columns accumulate. -/
def indexAddRow : List (Nat × ℚ) → List ℚ → List ℚ
  | [], r => r
  | (j, v) :: rest, r => indexAddRow rest (r.set j (r.getD j 0 + v))

/-- `scores.index_fill_(1, blank, c)` acting on one row. -/
def indexFillRow (r : List ℚ) (blank : List Nat) (c : ℚ) : List ℚ :=
  blank.foldl (fun acc j => acc.set j c) r

/-- `HierarchicalTextDataset.collapse_copy_scores` restricted to one
row (one output position of one batch element), over the expanded
vocabulary `tgt_vocab ++ src_vocab`: if the `blank` list is nonempty,
first `index_add_` the selected expanded-region columns onto their
shared-vocabulary columns (the selection `index_select(1, blank)` is
copied out of the original row before any mutation), then `index_fill_`
the expanded-region columns with `1e-10`. -/
def collapseRow (tgt_itos src_itos : List String) (r : List ℚ) : List ℚ :=
  let pairs := copyPairs tgt_itos src_itos
  if pairs.isEmpty then r
  else
    indexFillRow
      (indexAddRow (pairs.map (fun p => (p.2, r.getD p.1 0))) r)
      (pairs.map Prod.fst) EPS

/-- The whole of `collapse_copy_scores`: for each output position and
each batch element `b`, collapse that element's score row against the
local vocabulary `src_vocabs[batch.indices.data[b]]`. -/
def collapse_copy_scores (tgt_itos : List String)
    (src_vocabs : List (List String)) (indices : List Nat)
    (scores : List (List (List ℚ))) : List (List (List ℚ)) :=
  scores.map (fun posRow =>
    posRow.mapIdx (fun b col =>
      collapseRow tgt_itos (src_vocabs.getD (indices.getD b 0) []) col))

/-- Reading a just-set index back, with a default. -/
theorem getD_set_self (r : List α) (j : Nat) (v d : α) (h : j < r.length) :
    (r.set j v).getD j d = v := by
  rw [List.getD_eq_getElem?_getD, List.getElem?_set]
  simp [h]

/-- Setting one index does not change reads at another. -/
theorem getD_set_ne (r : List α) (k j : Nat) (v d : α) (h : k ≠ j) :
    (r.set k v).getD j d = r.getD j d := by
  rw [List.getD_eq_getElem?_getD, List.getElem?_set_ne h,
    ← List.getD_eq_getElem?_getD]

/-- `indexAddRow` preserves the row length. -/
theorem indexAddRow_length (ps : List (Nat × ℚ)) :
    ∀ r : List ℚ, (indexAddRow ps r).length = r.length := by
  induction ps with
  | nil => intro r; rfl
  | cons p ps ih =>
    intro r
    obtain ⟨j, v⟩ := p
    rw [indexAddRow, ih, List.length_set]

/-- What `indexAddRow` leaves at a valid column `j`: the original value
plus the sum of all the added values targeted at `j`. -/
theorem indexAddRow_getD (ps : List (Nat × ℚ)) :
    ∀ (r : List ℚ) (j : Nat), (∀ p ∈ ps, p.1 < r.length) → j < r.length →
      (indexAddRow ps r).getD j 0 =
        r.getD j 0 +
          ((ps.filter (fun p => decide (p.1 = j))).map Prod.snd).sum := by
  induction ps with
  | nil => intro r j _ _; simp [indexAddRow]
  | cons p ps ih =>
    intro r j hmem hj
    obtain ⟨k, v⟩ := p
    have hk : k < r.length := hmem (k, v) (List.mem_cons_self _ _)
    have hmem' : ∀ q ∈ ps, q.1 < (r.set k (r.getD k 0 + v)).length := by
      intro q hq
      rw [List.length_set]
      exact hmem q (List.mem_cons_of_mem _ hq)
    have hj' : j < (r.set k (r.getD k 0 + v)).length := by
      rw [List.length_set]; exact hj
    rw [indexAddRow, ih _ j hmem' hj']
    by_cases hkj : k = j
    · subst hkj
      rw [getD_set_self _ _ _ _ hk]
      simp only [List.filter_cons, decide_eq_true_eq, if_pos rfl]
      simp [add_assoc]
    · rw [getD_set_ne _ _ _ _ _ hkj]
      simp only [List.filter_cons, decide_eq_true_eq, if_neg hkj]

/-- `indexFillRow` preserves the row length. -/
theorem indexFillRow_length (blank : List Nat) :
    ∀ (r : List ℚ) (c : ℚ), (indexFillRow r blank c).length = r.length := by
  induction blank with
  | nil => intro r c; rfl
  | cons k bs ih =>
    intro r c
    rw [indexFillRow, List.foldl_cons, ← indexFillRow, ih, List.length_set]

/-- What `indexFillRow` leaves at column `j`: the constant if `j` is a
valid filled column, the original value otherwise. -/
theorem indexFillRow_getD (blank : List Nat) :
    ∀ (r : List ℚ) (c : ℚ) (j : Nat),
      (indexFillRow r blank c).getD j 0 =
        if j ∈ blank ∧ j < r.length then c else r.getD j 0 := by
  induction blank with
  | nil => intro r c j; simp [indexFillRow]
  | cons k bs ih =>
    intro r c j
    rw [indexFillRow, List.foldl_cons, ← indexFillRow, ih, List.length_set]
    by_cases hbs : j ∈ bs ∧ j < r.length
    · rw [if_pos hbs, if_pos ⟨List.mem_cons_of_mem _ hbs.1, hbs.2⟩]
    · rw [if_neg hbs]
      by_cases hkj : k = j
      · subst hkj
        by_cases hk : k < r.length
        · rw [getD_set_self _ _ _ _ hk, if_pos ⟨List.mem_cons_self _ _, hk⟩]
        · rw [List.getD_eq_getElem?_getD, List.getElem?_set, if_pos rfl,
            if_neg hk, if_neg (by tauto), List.getD_eq_getElem?_getD,
            List.getElem?_eq_none (by omega)]
      · rw [getD_set_ne _ _ _ _ _ hkj]
        rw [if_neg (by
          rintro ⟨hmem, hlt⟩
          rcases List.mem_cons.mp hmem with h | h
          · exact hkj h.symm
          · exact hbs ⟨h, hlt⟩)]

/-- A nonzero `stoi` value is a genuine index into `itos`. -/
theorem vocabStoi_lt_length (itos : List String) (w : String)
    (h : vocabStoi itos w ≠ 0) : vocabStoi itos w < itos.length := by
  rw [vocabStoi] at h ⊢
  by_cases hi : itos.indexOf w = itos.length
  · simp [hi] at h
  · simp only [hi, if_false]
    exact lt_of_le_of_ne List.indexOf_le_length hi

/-- Shape of the members of the `(blank, fill)` pair list. -/
theorem mem_copyPairs (tgt_itos src_itos : List String) (p : Nat × Nat)
    (hp : p ∈ copyPairs tgt_itos src_itos) :
    ∃ i, 1 ≤ i ∧ i < src_itos.length ∧
      vocabStoi tgt_itos (src_itos.getD i "") ≠ 0 ∧
      p = (tgt_itos.length + i, vocabStoi tgt_itos (src_itos.getD i "")) := by
  rw [copyPairs] at hp
  rcases List.mem_filterMap.mp hp with ⟨i, hi, hsome⟩
  rw [List.mem_range'_1] at hi
  by_cases ht : vocabStoi tgt_itos (src_itos.getD i "") ≠ 0
  · rw [if_pos ht] at hsome
    exact ⟨i, hi.1, by omega, ht, (Option.some.inj hsome).symm⟩
  · rw [if_neg ht] at hsome
    exact absurd hsome (by simp)

/-- Every mapped local index contributes its pair to the list. -/
theorem copyPairs_mem_of (tgt_itos src_itos : List String) (i : Nat)
    (h1 : 1 ≤ i) (h2 : i < src_itos.length)
    (ht : vocabStoi tgt_itos (src_itos.getD i "") ≠ 0) :
    (tgt_itos.length + i, vocabStoi tgt_itos (src_itos.getD i "")) ∈
      copyPairs tgt_itos src_itos := by
  rw [copyPairs]
  refine List.mem_filterMap.mpr ⟨i, ?_, by rw [if_pos ht]⟩
  rw [List.mem_range'_1]
  omega

/-- Collecting, over a list of local indices, the selected expanded
column values whose shared target is `t`: the pair bookkeeping reduces
to a plain filter over the indices. -/
theorem copyPairs_collect (tgt_itos src_itos : List String) (r : List ℚ)
    (t : Nat) (ht : t ≠ 0) (L : List Nat) :
    (((L.filterMap (fun i =>
          if vocabStoi tgt_itos (src_itos.getD i "") ≠ 0 then
            some (tgt_itos.length + i, vocabStoi tgt_itos (src_itos.getD i ""))
          else none)).map (fun p => (p.2, r.getD p.1 0))).filter
        (fun p => decide (p.1 = t))).map Prod.snd =
      (L.filter (fun i =>
          decide (vocabStoi tgt_itos (src_itos.getD i "") = t))).map
        (fun i => r.getD (tgt_itos.length + i) 0) := by
  set g : Nat → Option (Nat × Nat) := fun j =>
    if vocabStoi tgt_itos (src_itos.getD j "") ≠ 0 then
      some (tgt_itos.length + j, vocabStoi tgt_itos (src_itos.getD j ""))
    else none with hg
  induction L with
  | nil => rfl
  | cons i L ih =>
    by_cases hti : vocabStoi tgt_itos (src_itos.getD i "") ≠ 0
    · have hfa : g i = some (tgt_itos.length + i,
          vocabStoi tgt_itos (src_itos.getD i "")) := by
        rw [hg]
        exact if_pos hti
      rw [List.filterMap_cons_some hfa, List.map_cons, List.filter_cons,
        List.filter_cons]
      by_cases he : vocabStoi tgt_itos (src_itos.getD i "") = t
      · simp only [List.getD_eq_getElem?_getD] at ih he ⊢
        simp [ih, he]
      · simp only [List.getD_eq_getElem?_getD] at ih he ⊢
        simp [ih, he]
    · have hfa : g i = none := by
        rw [hg]
        exact if_neg hti
      have h0 : vocabStoi tgt_itos (src_itos.getD i "") = 0 := by tauto
      rw [List.filterMap_cons_none hfa, List.filter_cons]
      simp only [List.getD_eq_getElem?_getD] at ih h0 ⊢
      simp [h0, Ne.symm ht, ih]

/-- C6: over one score row of the expanded vocabulary
`tgt_vocab ++ src_vocab` (one output position of one batch element),
the collapser leaves expanded-region columns whose local token has no
shared-vocabulary counterpart untouched, and for every local index
`i ≥ 1` whose token has shared index `ti ≠ 0` it sets the
expanded-region column `offset + i` to the epsilon `1e-10` and leaves
at the shared column `ti` its original value plus the sum of the
original expanded-region values of all local indices mapping to `ti`. -/
theorem claim_C6_collapse_copy_scores_row (tgt_itos src_itos : List String)
    (r : List ℚ) (i : Nat)
    (hr : r.length = tgt_itos.length + src_itos.length)
    (h1 : 1 ≤ i) (h2 : i < src_itos.length) :
    (vocabStoi tgt_itos (src_itos.getD i "") = 0 →
        (collapseRow tgt_itos src_itos r).getD (tgt_itos.length + i) 0 =
          r.getD (tgt_itos.length + i) 0) ∧
      (vocabStoi tgt_itos (src_itos.getD i "") ≠ 0 →
        (collapseRow tgt_itos src_itos r).getD (tgt_itos.length + i) 0 =
            EPS ∧
          (collapseRow tgt_itos src_itos r).getD
              (vocabStoi tgt_itos (src_itos.getD i "")) 0 =
            r.getD (vocabStoi tgt_itos (src_itos.getD i "")) 0 +
              (((List.range' 1 (src_itos.length - 1)).filter (fun i' =>
                  decide (vocabStoi tgt_itos (src_itos.getD i' "") =
                    vocabStoi tgt_itos (src_itos.getD i "")))).map
                (fun i' => r.getD (tgt_itos.length + i') 0)).sum) := by
  have hvalid : ∀ q ∈ (copyPairs tgt_itos src_itos).map
      (fun p => (p.2, r.getD p.1 0)), q.1 < r.length := by
    intro q hq
    rcases List.mem_map.mp hq with ⟨p, hp, rfl⟩
    rcases mem_copyPairs _ _ _ hp with ⟨i', _, _, hti', hpe⟩
    subst hpe
    show vocabStoi tgt_itos (src_itos.getD i' "") < r.length
    have := vocabStoi_lt_length tgt_itos (src_itos.getD i' "") hti'
    omega
  have hblank : ∀ b ∈ (copyPairs tgt_itos src_itos).map Prod.fst,
      ∃ i', 1 ≤ i' ∧ i' < src_itos.length ∧
        vocabStoi tgt_itos (src_itos.getD i' "") ≠ 0 ∧
        b = tgt_itos.length + i' := by
    intro b hb
    rcases List.mem_map.mp hb with ⟨p, hp, rfl⟩
    rcases mem_copyPairs _ _ _ hp with ⟨i', hi1, hi2, hti', hpe⟩
    exact ⟨i', hi1, hi2, hti', by rw [hpe]⟩
  constructor
  · intro ht0
    simp only [collapseRow]
    by_cases hemp : (copyPairs tgt_itos src_itos).isEmpty = true
    · rw [if_pos hemp]
    · rw [if_neg hemp]
      have hofflt : tgt_itos.length + i < r.length := by omega
      have hnotblank :
          tgt_itos.length + i ∉ (copyPairs tgt_itos src_itos).map Prod.fst := by
        intro hmem
        rcases hblank _ hmem with ⟨i', _, _, hti', heq⟩
        have hii : i' = i := by omega
        rw [hii] at hti'
        exact hti' ht0
      rw [indexFillRow_getD, if_neg (fun h => hnotblank h.1),
        indexAddRow_getD _ _ _ hvalid hofflt]
      have hfilter : ((copyPairs tgt_itos src_itos).map
          (fun p => (p.2, r.getD p.1 0))).filter
            (fun p => decide (p.1 = tgt_itos.length + i)) = [] := by
        rw [List.filter_eq_nil_iff]
        intro q hq
        rcases List.mem_map.mp hq with ⟨p, hp, rfl⟩
        rcases mem_copyPairs _ _ _ hp with ⟨i', _, _, hti', hpe⟩
        subst hpe
        simp only [decide_eq_true_eq]
        have := vocabStoi_lt_length tgt_itos (src_itos.getD i' "") hti'
        omega
      rw [hfilter]
      simp
  · intro ht
    have hmemP := copyPairs_mem_of tgt_itos src_itos i h1 h2 ht
    have hemp : (copyPairs tgt_itos src_itos).isEmpty = false :=
      List.isEmpty_eq_false.mpr (List.ne_nil_of_mem hmemP)
    have htilt : vocabStoi tgt_itos (src_itos.getD i "") < tgt_itos.length :=
      vocabStoi_lt_length _ _ ht
    simp only [collapseRow]
    rw [if_neg (by simp [hemp])]
    constructor
    · rw [indexFillRow_getD,
        if_pos ⟨List.mem_map.mpr ⟨_, hmemP, rfl⟩,
          by rw [indexAddRow_length]; omega⟩]
    · rw [indexFillRow_getD, if_neg (fun hco => by
        rcases hblank _ hco.1 with ⟨i', hi1, _, _, heq⟩
        omega),
        indexAddRow_getD _ _ _ hvalid (by omega)]
      simp only [copyPairs]
      rw [copyPairs_collect tgt_itos src_itos r
        (vocabStoi tgt_itos (src_itos.getD i "")) ht
        (List.range' 1 (src_itos.length - 1))]

/-- A three-word vocabulary used as both the shared and the local
vocabulary in concrete collapse computations. -/
def tv3 : List String := ["u", "p", "a"]

/-- A concrete score row over the expanded width `3 + 3`. -/
def rrow6 : List ℚ := [1, 2, 3, 4, 5, 6]

/-- A closed witness for `claim_C6_collapse_copy_scores_row`. -/
theorem claim_C6_witness :
    rrow6.length = tv3.length + tv3.length ∧ 1 ≤ 2 ∧ 2 < tv3.length ∧
      ((vocabStoi tv3 (tv3.getD 2 "") = 0 →
          (collapseRow tv3 tv3 rrow6).getD (tv3.length + 2) 0 =
            rrow6.getD (tv3.length + 2) 0) ∧
        (vocabStoi tv3 (tv3.getD 2 "") ≠ 0 →
          (collapseRow tv3 tv3 rrow6).getD (tv3.length + 2) 0 = EPS ∧
            (collapseRow tv3 tv3 rrow6).getD (vocabStoi tv3 (tv3.getD 2 "")) 0 =
              rrow6.getD (vocabStoi tv3 (tv3.getD 2 "")) 0 +
                (((List.range' 1 (tv3.length - 1)).filter (fun i' =>
                    decide (vocabStoi tv3 (tv3.getD i' "") =
                      vocabStoi tv3 (tv3.getD 2 "")))).map
                  (fun i' => rrow6.getD (tv3.length + i') 0)).sum)) :=
  ⟨by decide, by decide, by decide,
    claim_C6_collapse_copy_scores_row tv3 tv3 rrow6 2 (by decide) (by decide)
      (by decide)⟩

/-- A concrete score row whose expanded region holds mass `1` and `2`. -/
def rrow6z : List ℚ := [0, 0, 0, 0, 1, 2]

unseal Rat.add Rat.mul Rat.inv in
/-- C7 counterexample: applying the collapser twice is NOT a no-op on an
already-collapsed matrix.  The first pass sets the expanded columns to
the epsilon `1e-10` (not zero), so the second pass adds that epsilon
into the corresponding shared columns again: here columns `1` and `2`
end at `1 + 1e-10` and `2 + 1e-10` instead of `1` and `2`. -/
theorem claim_C7_counterexample :
    collapseRow tv3 tv3 (collapseRow tv3 tv3 rrow6z) ≠
      collapseRow tv3 tv3 rrow6z := by
  decide

/-- C7 (amended): the second application is a no-op exactly in the
degenerate situation in which the collapser moved nothing, i.e. when no
local-vocabulary entry at index `≥ 1` is present in the shared target
vocabulary (empty `blank` list); then both passes are the identity. -/
theorem claim_C7_amended_no_overlap_idempotent
    (tgt_itos src_itos : List String) (r : List ℚ)
    (h : copyPairs tgt_itos src_itos = []) :
    collapseRow tgt_itos src_itos (collapseRow tgt_itos src_itos r) =
      collapseRow tgt_itos src_itos r := by
  simp [collapseRow, h]

/-- A closed witness for `claim_C7_amended_no_overlap_idempotent`. -/
theorem claim_C7_amended_witness :
    copyPairs ["u"] ["u", "x"] = [] ∧
      collapseRow ["u"] ["u", "x"]
          (collapseRow ["u"] ["u", "x"] [1, 2, 3]) =
        collapseRow ["u"] ["u", "x"] [1, 2, 3] :=
  ⟨by decide,
    claim_C7_amended_no_overlap_idempotent ["u"] ["u", "x"] [1, 2, 3]
      (by decide)⟩
